import Mathlib

/-!
Verification of the session & conversation-context management subsystem of
AiMessagerBot, shallowly embedded from the Python sources:

* `app/backend/ai_agent.py` — the `AIAgent` class (cache `conversation_memory`,
  `_get_session_context`, `_update_session_context`, `_log_conversation`,
  `process_message`, `clear_session`);
* `app/bot/middleware.py` — the `rate_limiter` decorator (sliding window);
* `app/utils/session.py` — `SessionManager.create_session`;
* `app/ai_agent.py` — `AIAgent.get_user_stats`.

Machine integers are modelled as `Int`/`Nat`; timestamps as `Int` seconds;
Python dicts as association lists; nullable DB columns as `Option`.
-/

namespace AiMessagerBot

/-! ### Python dict operations (association-list semantics) -/

/-- Lookup in a Python dict, modelled on an association list. -/
def dictGet {α β : Type} [DecidableEq α] (m : List (α × β)) (k : α) : Option β :=
  match m with
  | [] => none
  | p :: rest => if p.1 = k then some p.2 else dictGet rest k

/-- Deletion `del m[k]` (a no-op here when `k` is absent, matching the guarded
`if session_id in self.conversation_memory: del ...` in the source). -/
def dictDel {α β : Type} [DecidableEq α] (m : List (α × β)) (k : α) :
    List (α × β) :=
  match m with
  | [] => []
  | p :: rest => if p.1 = k then dictDel rest k else p :: dictDel rest k

/-- Assignment `m[k] = v` in a Python dict. -/
def dictSet {α β : Type} [DecidableEq α] (m : List (α × β)) (k : α) (v : β) :
    List (α × β) :=
  (k, v) :: dictDel m k

theorem dictGet_dictDel_self {α β : Type} [DecidableEq α]
    (m : List (α × β)) (k : α) : dictGet (dictDel m k) k = none := by
  induction m with
  | nil => rfl
  | cons p rest ih =>
    by_cases hp : p.1 = k
    · simpa [dictDel, hp] using ih
    · simpa [dictDel, dictGet, hp] using ih

theorem dictGet_dictDel_ne {α β : Type} [DecidableEq α]
    (m : List (α × β)) (k k' : α) (h : k' ≠ k) :
    dictGet (dictDel m k) k' = dictGet m k' := by
  have h2 : ¬ k = k' := fun hh => h hh.symm
  induction m with
  | nil => rfl
  | cons p rest ih =>
    by_cases hp : p.1 = k
    · simpa [dictDel, dictGet, hp, h2] using ih
    · by_cases hp' : p.1 = k'
      · simp [dictDel, dictGet, hp, hp', h]
      · simpa [dictDel, dictGet, hp, hp'] using ih

theorem dictGet_dictSet_self {α β : Type} [DecidableEq α]
    (m : List (α × β)) (k : α) (v : β) : dictGet (dictSet m k v) k = some v := by
  simp [dictGet, dictSet]

theorem dictGet_dictSet_ne {α β : Type} [DecidableEq α]
    (m : List (α × β)) (k k' : α) (v : β) (h : k' ≠ k) :
    dictGet (dictSet m k v) k' = dictGet m k' := by
  have h2 : ¬ k = k' := fun hh => h hh.symm
  simp [dictGet, dictSet, h2, dictGet_dictDel_ne m k k' h]

theorem dictDel_dictDel {α β : Type} [DecidableEq α]
    (m : List (α × β)) (k : α) : dictDel (dictDel m k) k = dictDel m k := by
  induction m with
  | nil => rfl
  | cons p rest ih =>
    by_cases hp : p.1 = k
    · simpa [dictDel, hp] using ih
    · simpa [dictDel, hp] using ih

/-! ### Data model

`Msg` is one element of a session context (a JSON object with `role` and
`content` keys in the source).  A context is the ordered message list. -/

structure Msg where
  role : String
  content : String
deriving DecidableEq, Repr

abbrev Context := List Msg

/-- Session ids flow through `process_message` as `str` or `None`. -/
abbrev SessionId := Option String

/-- The default system context returned by `_get_session_context`
(`app/backend/ai_agent.py`, lines 99–105). -/
def systemSeed : Msg :=
  { role := "system"
    content := "You are a helpful AI assistant integrated with Telegram. Provide clear, concise, and helpful responses." }

/-- A `user_sessions` row as used by the backend agent.  The `context` column
is a nullable JSON text, modelled as `Option Context` (`none` for NULL or the
empty string, which are falsy in the `if session and session.context:` guard;
any JSON-encoded list, even the empty one, is a non-empty string and truthy). -/
structure BSession where
  user_id : Int
  session_id : SessionId
  context : Option Context
  is_active : Bool
deriving DecidableEq, Repr

/-- A backend `conversations` audit row (`_log_conversation`). -/
structure BConv where
  user_id : Int
  message : String
  response : String
  processing_time : Int
deriving DecidableEq, Repr

/-- The mutable state touched by the backend `AIAgent`: the in-memory cache
`conversation_memory` plus the two database tables. -/
structure AgentState where
  memory : List (SessionId × Context)
  sessions : List BSession
  convs : List BConv
deriving DecidableEq, Repr

/-- The `ChatResponse` pydantic model (`app/backend/models.py`). -/
structure ChatResponse where
  response : String
  session_id : SessionId
  processing_time : Option Int
  success : Bool
  error : Option String
deriving DecidableEq, Repr

/-- Generic user-facing failure message of `process_message`. -/
def genericFailureText : String :=
  "I\u0027m sorry, I encountered an error processing your request. Please try again."

/-! ### Backend AIAgent operations -/

/-- The DB query of `_get_session_context`: first active row matching the
user id and session id. -/
def findActiveSession (uid : Int) (sid : SessionId) (l : List BSession) :
    Option BSession :=
  l.find? fun s => decide (s.user_id = uid ∧ s.session_id = sid ∧ s.is_active = true)

/-- `AIAgent._get_session_context`: serve from the cache (returning a copy),
else load from the database (caching the loaded context), else fall back to a
fresh default system context — which is returned but not stored. -/
def getSessionContext (uid : Int) (sid : SessionId) (st : AgentState) :
    Context × AgentState :=
  match dictGet st.memory sid with
  | some c => (c, st)
  | none =>
    match findActiveSession uid sid st.sessions with
    | some s =>
      match s.context with
      | some c => (c, { st with memory := dictSet st.memory sid c })
      | none => ([systemSeed], st)
    | none => ([systemSeed], st)

/-- Truncation in `_update_session_context` (line 110–111):
`context[:1] + context[-19:]` whenever the length exceeds 20. -/
def truncateContext (ctx : Context) : Context :=
  if 20 < ctx.length then ctx.take 1 ++ ctx.drop (ctx.length - 19) else ctx

/-- The `.first()` row matching user id and session id (active or not) gets
its `context` column overwritten; later matches are untouched. -/
def updateFirstSession (uid : Int) (sid : SessionId) (c : Context) :
    List BSession → List BSession
  | [] => []
  | s :: rest =>
    if s.user_id = uid ∧ s.session_id = sid then { s with context := some c } :: rest
    else s :: updateFirstSession uid sid c rest

/-- Whether `_update_session_context`'s query finds an existing row. -/
def sessionRowExists (uid : Int) (sid : SessionId) (l : List BSession) : Bool :=
  (l.find? fun s => decide (s.user_id = uid ∧ s.session_id = sid)).isSome

/-- `AIAgent._update_session_context`: truncate, write the cache entry, and
update (or insert, with `is_active` defaulting to true) the database row. -/
def updateSessionContext (uid : Int) (sid : SessionId) (ctx : Context)
    (st : AgentState) : AgentState :=
  let tctx := truncateContext ctx
  { st with
    memory := dictSet st.memory sid tctx
    sessions :=
      if sessionRowExists uid sid st.sessions then
        updateFirstSession uid sid tctx st.sessions
      else
        st.sessions ++ [{ user_id := uid, session_id := sid, context := some tctx,
                          is_active := true }] }

/-- `AIAgent._log_conversation`: append one audit row. -/
def logConversation (uid : Int) (msg resp : String) (pt : Int)
    (st : AgentState) : AgentState :=
  { st with convs := st.convs ++ [{ user_id := uid, message := msg,
                                    response := resp, processing_time := pt }] }

/-- `AIAgent._generate_response`: a single model-backend attempt whose failure
is re-raised with the `OpenAI API error: ` prefix. -/
def generateResponse (backend : Except String String) : Except String String :=
  match backend with
  | .ok s => .ok s
  | .error e => .error ("OpenAI API error: " ++ e)

/-- `AIAgent.process_message`: the full turn.  The model backend outcome is a
parameter (`.ok reply` or `.error e`), as is the measured processing time. -/
def processMessage (uid : Int) (msg : String) (sid : SessionId)
    (backend : Except String String) (pt : Int) (st : AgentState) :
    ChatResponse × AgentState :=
  let res := getSessionContext uid sid st
  let ctx1 := res.1 ++ [{ role := "user", content := msg }]
  match generateResponse backend with
  | .ok reply =>
    let ctx2 := ctx1 ++ [{ role := "assistant", content := reply }]
    let st2 := updateSessionContext uid sid ctx2 res.2
    let st3 := logConversation uid msg reply pt st2
    ({ response := reply, session_id := sid, processing_time := some pt,
       success := true, error := none }, st3)
  | .error e =>
    ({ response := genericFailureText, session_id := sid, processing_time := none,
       success := false, error := some ("Error processing message: " ++ e) }, res.2)

/-- `AIAgent.clear_session`: evict the cache entry and mark every matching
database row inactive; audit rows are untouched. -/
def clearSession (uid : Int) (sid : SessionId) (st : AgentState) : AgentState :=
  { st with
    memory := dictDel st.memory sid
    sessions := st.sessions.map fun s =>
      if s.user_id = uid ∧ s.session_id = sid then { s with is_active := false }
      else s }

/-- One inbound turn, as fed to `process_message`. -/
structure TurnInput where
  user_id : Int
  message : String
  session_id : SessionId
  backend : Except String String
  ptime : Int

/-- A sequence of processed turns. -/
def runTurns (ts : List TurnInput) (st : AgentState) : AgentState :=
  ts.foldl (fun s t => (processMessage t.user_id t.message t.session_id t.backend t.ptime s).2) st

/-- Every stored context — cached or persisted — respects the cap of 20. -/
def CapOK (st : AgentState) : Prop :=
  (∀ p ∈ st.memory, p.2.length ≤ 20) ∧
  (∀ s ∈ st.sessions, (s.context.getD []).length ≤ 20)

/-! ### RateLimiter (`app/bot/middleware.py`, `rate_limiter`)

Timestamps are `Int` seconds.  `settings.RATE_LIMIT_MESSAGES = 10` and
`settings.RATE_LIMIT_WINDOW = 60` are the configured defaults. -/

def RATE_LIMIT_MESSAGES : Nat := 10

def RATE_LIMIT_WINDOW : Int := 60

/-- The pruning loop: `while user_times and user_times[0] < window_start:
user_times.popleft()`. -/
def pruneWindow (w now : Int) (times : List Int) : List Int :=
  times.dropWhile fun t => decide (t < now - w)

/-- One admission check on a single identity's deque: prune, then reject with
no append if the remaining count reaches the limit, else append `now`. -/
def rateStep (n : Nat) (w now : Int) (times : List Int) : Bool × List Int :=
  let ts := pruneWindow w now times
  if n ≤ ts.length then (false, ts) else (true, ts ++ [now])

/-- The decorator acting on the global `user_message_times` defaultdict:
the identity's deque is fetched (empty when absent), stepped, and stored
back (pruning is in-place in the source, so it persists even on reject). -/
def rateLimiterCall (now : Int) (uid : Int) (m : List (Int × List Int)) :
    Bool × List (Int × List Int) :=
  let times := (dictGet m uid).getD []
  let res := rateStep RATE_LIMIT_MESSAGES RATE_LIMIT_WINDOW now times
  (res.1, dictSet m uid res.2)

/-- Run the limiter on one identity over a list of request times, returning
the list of admission decisions and the final deque. -/
def runRate (n : Nat) (w : Int) : List Int → List Int → List Bool × List Int
  | [], times => ([], times)
  | now :: rest, times =>
    let res := rateStep n w now times
    let tail := runRate n w rest res.2
    (res.1 :: tail.1, tail.2)

/-- The times of the admitted requests along a run of the limiter. -/
def runAccepted (n : Nat) (w : Int) : List Int → List Int → List Int
  | [], _ => []
  | now :: rest, times =>
    let res := rateStep n w now times
    if res.1 then now :: runAccepted n w rest res.2 else runAccepted n w rest res.2

/-! ### SessionManager (`app/utils/session.py`) and user stats
(`app/ai_agent.py`)

The `user_sessions` rows of this implementation carry `context_data`, a JSON
text initialized to the empty object; we model the decoded value, a context
holding no messages, as the empty list. -/

structure USession where
  user_id : Int
  session_id : String
  context_data : Context
  is_active : Bool
deriving DecidableEq, Repr

/-- `SessionManager.create_session`: deactivate every active session of the
user, then insert a fresh active row whose context is the empty object.  The
fresh uuid4 id is a parameter. -/
def createSession (uid : Int) (newId : String) (db : List USession) :
    String × List USession :=
  let db1 := db.map fun s =>
    if s.user_id = uid ∧ s.is_active = true then { s with is_active := false } else s
  (newId, db1 ++ [{ user_id := uid, session_id := newId, context_data := [],
                    is_active := true }])

/-- A `conversations` row in the `app/database.py` schema. -/
structure ConvRecord where
  user_id : Int
  session_id : String
  message_type : String
  content : String
  tokens_used : Int
deriving DecidableEq, Repr

/-- The dict returned by `AIAgent.get_user_stats` on success. -/
structure UserStats where
  total_messages : Nat
  total_tokens_used : Int
  active_sessions : Nat
deriving DecidableEq, Repr

/-- The names resolvable at module scope in `app/ai_agent.py`: its imports
(`openai`, `json`, typing names, `Session`, `settings`, `Conversation`,
`setup_logging`, `SessionManager`) and its own top-level definitions.
`UserSession` is not among them — the import from `app.database` brings in
only `Conversation`. -/
def aiAgentModuleNames : List String :=
  ["openai", "json", "Dict", "List", "Any", "Optional", "Session", "settings",
   "Conversation", "setup_logging", "SessionManager", "logger", "AIAgent"]

/-- `AIAgent.get_user_stats`: counts the user's conversation rows, sums their
`tokens_used` (skipping falsy values), then evaluates the name `UserSession`
to count active sessions; that last evaluation raises `NameError` because the
name is not defined in the module, so the whole call raises. -/
def getUserStats (dbConvs : List ConvRecord) (dbSessions : List USession)
    (uid : Int) : Except String UserStats :=
  let userConvs := dbConvs.filter fun c => decide (c.user_id = uid)
  let totalMessages := userConvs.length
  let totalTokens := (userConvs.map (·.tokens_used)).foldl
    (fun a t => if t ≠ 0 then a + t else a) 0
  if "UserSession" ∈ aiAgentModuleNames then
    .ok { total_messages := totalMessages, total_tokens_used := totalTokens,
          active_sessions := (dbSessions.filter fun s =>
            decide (s.user_id = uid ∧ s.is_active = true)).length }
  else
    .error "NameError: name UserSession is not defined"

/-! ### Aliasing model of the cache read path

To state that `_get_session_context` hands the caller a *copy* — so that the
turn's appends do not reach the shared `conversation_memory` entry — we give
the same code a second embedding with an explicit heap of list objects.  The
cache maps session ids to references; `list.copy()` and `json.loads` allocate
fresh objects; `list.append` mutates in place through a reference. -/

structure Heap where
  cells : List Context
deriving DecidableEq, Repr

def Heap.read (h : Heap) (r : Nat) : Context := h.cells.getD r []

def Heap.write (h : Heap) (r : Nat) (c : Context) : Heap := ⟨h.cells.set r c⟩

def Heap.alloc (h : Heap) (c : Context) : Heap × Nat :=
  (⟨h.cells ++ [c]⟩, h.cells.length)

/-- Agent state with object identities: `memory` holds references into the
heap rather than values. -/
structure RefState where
  heap : Heap
  memory : List (SessionId × Nat)
  sessions : List BSession
deriving DecidableEq, Repr

/-- `_get_session_context` over the heap model.  A cache hit allocates and
returns a copy of the cached object; a database load allocates the parsed
object, caches that reference, and returns a freshly allocated copy; the
default branch allocates a fresh seed context that is not cached at all. -/
def getSessionContextRef (uid : Int) (sid : SessionId) (st : RefState) :
    Nat × RefState :=
  match dictGet st.memory sid with
  | some a =>
    let res := st.heap.alloc (st.heap.read a)
    (res.2, { st with heap := res.1 })
  | none =>
    match findActiveSession uid sid st.sessions with
    | some s =>
      match s.context with
      | some c =>
        let res := st.heap.alloc c
        let res2 := res.1.alloc (res.1.read res.2)
        (res2.2, { st with heap := res2.1, memory := dictSet st.memory sid res.2 })
      | none =>
        let res := st.heap.alloc [systemSeed]
        (res.2, { st with heap := res.1 })
    | none =>
      let res := st.heap.alloc [systemSeed]
      (res.2, { st with heap := res.1 })

/-- `context.append(...)`: in-place mutation of the referenced object. -/
def appendMsg (r : Nat) (m : Msg) (st : RefState) : RefState :=
  { st with heap := st.heap.write r (st.heap.read r ++ [m]) }

/-- The turn's appends (user message, then assistant message, in general any
series of appends through the same reference). -/
def appendMsgs (r : Nat) (ms : List Msg) (st : RefState) : RefState :=
  ms.foldl (fun s m => appendMsg r m s) st

/-- Heap well-formedness: every cached reference points into the heap. -/
def RefWF (st : RefState) : Prop :=
  ∀ p ∈ st.memory, p.2 < st.heap.cells.length

/-! ### Lemmas about truncation and the cap invariant -/

theorem truncateContext_length_le (ctx : Context) :
    (truncateContext ctx).length ≤ 20 := by
  unfold truncateContext
  split
  case isTrue h =>
    simp only [List.length_append, List.length_take, List.length_drop]
    omega
  case isFalse h => omega

theorem truncateContext_head? (ctx : Context) (m : Msg)
    (h : ctx.head? = some m) : (truncateContext ctx).head? = some m := by
  unfold truncateContext
  split
  case isTrue hlen =>
    cases ctx with
    | nil => simp at h
    | cons a t => simpa using h
  case isFalse hlen => exact h

theorem truncateContext_sublist (ctx : Context) :
    List.Sublist (truncateContext ctx) ctx := by
  unfold truncateContext
  split
  case isTrue h =>
    have h1 : ctx.take 1 = (ctx.take (ctx.length - 19)).take 1 := by
      rw [List.take_take]
      congr 1
      omega
    conv_rhs => rw [← List.take_append_drop (ctx.length - 19) ctx]
    exact List.Sublist.append (h1 ▸ List.take_sublist 1 (ctx.take (ctx.length - 19)))
      (List.Sublist.refl _)
  case isFalse h => exact List.Sublist.refl _

theorem mem_dictDel {α β : Type} [DecidableEq α] {m : List (α × β)} {k : α}
    {p : α × β} (h : p ∈ dictDel m k) : p ∈ m := by
  induction m with
  | nil => simp [dictDel] at h
  | cons q rest ih =>
    by_cases hq : q.1 = k
    · simp only [dictDel, if_pos hq] at h
      exact List.mem_cons_of_mem _ (ih h)
    · simp only [dictDel, if_neg hq] at h
      rcases List.mem_cons.mp h with h1 | h1
      · exact h1 ▸ List.mem_cons_self _ _
      · exact List.mem_cons_of_mem _ (ih h1)

theorem updateFirstSession_cap (uid : Int) (sid : SessionId) (c : Context)
    (l : List BSession) (hc : c.length ≤ 20)
    (hl : ∀ s ∈ l, (s.context.getD []).length ≤ 20) :
    ∀ s' ∈ updateFirstSession uid sid c l, (s'.context.getD []).length ≤ 20 := by
  induction l with
  | nil => intro s' h; simp [updateFirstSession] at h
  | cons s rest ih =>
    intro s' h
    unfold updateFirstSession at h
    split at h
    · rcases List.mem_cons.mp h with h1 | h1
      · subst h1; simpa using hc
      · exact hl _ (List.mem_cons_of_mem _ h1)
    · rcases List.mem_cons.mp h with h1 | h1
      · subst h1; exact hl _ (List.mem_cons_self _ _)
      · exact ih (fun t ht => hl t (List.mem_cons_of_mem _ ht)) _ h1

theorem capOK_getSessionContext (uid : Int) (sid : SessionId) (st : AgentState)
    (h : CapOK st) : CapOK (getSessionContext uid sid st).2 := by
  cases hmem : dictGet st.memory sid with
  | some c => simp only [getSessionContext, hmem]; exact h
  | none =>
    cases hfind : findActiveSession uid sid st.sessions with
    | none => simp only [getSessionContext, hmem, hfind]; exact h
    | some s =>
      cases hctx : s.context with
      | none => simp only [getSessionContext, hmem, hfind, hctx]; exact h
      | some c =>
        simp only [getSessionContext, hmem, hfind, hctx]
        refine ⟨?_, h.2⟩
        intro p hp
        simp only [dictSet] at hp
        rcases List.mem_cons.mp hp with h1 | h1
        · have hsmem : s ∈ st.sessions := List.mem_of_find?_eq_some hfind
          have := h.2 s hsmem
          rw [hctx] at this
          simpa [h1] using this
        · exact h.1 p (mem_dictDel h1)

theorem capOK_updateSessionContext (uid : Int) (sid : SessionId) (ctx : Context)
    (st : AgentState) (h : CapOK st) :
    CapOK (updateSessionContext uid sid ctx st) := by
  obtain ⟨hm, hs⟩ := h
  constructor
  · intro p hp
    simp only [updateSessionContext, dictSet] at hp
    rcases List.mem_cons.mp hp with h1 | h1
    · simpa [h1] using truncateContext_length_le ctx
    · exact hm p (mem_dictDel h1)
  · intro s hsmem
    simp only [updateSessionContext] at hsmem
    split at hsmem
    · exact updateFirstSession_cap uid sid _ st.sessions
        (truncateContext_length_le ctx) hs s hsmem
    · rcases List.mem_append.mp hsmem with h1 | h1
      · exact hs s h1
      · rcases List.mem_singleton.mp h1 with rfl
        simpa using truncateContext_length_le ctx

theorem capOK_processMessage (uid : Int) (msg : String) (sid : SessionId)
    (backend : Except String String) (pt : Int) (st : AgentState)
    (h : CapOK st) : CapOK (processMessage uid msg sid backend pt st).2 := by
  cases backend with
  | error e =>
    simpa [processMessage, generateResponse] using capOK_getSessionContext uid sid st h
  | ok reply =>
    have h1 := capOK_getSessionContext uid sid st h
    have h2 := capOK_updateSessionContext uid sid
      ((getSessionContext uid sid st).1 ++ [{ role := "user", content := msg }] ++
        [{ role := "assistant", content := reply }]) (getSessionContext uid sid st).2 h1
    simp only [processMessage, generateResponse, logConversation]
    exact ⟨h2.1, h2.2⟩

theorem capOK_runTurns (ts : List TurnInput) (st : AgentState) (h : CapOK st) :
    CapOK (runTurns ts st) := by
  induction ts generalizing st with
  | nil => simpa [runTurns] using h
  | cons t rest ih =>
    simp only [runTurns, List.foldl_cons]
    exact ih _ (capOK_processMessage t.user_id t.message t.session_id t.backend t.ptime st h)

/-! ### Claims C1 and C2 -/

/-- C1: after any turn commits, the stored context length never exceeds the
cap 20; truncation is applied on every write (the cache entry written by
`_update_session_context` is always the truncated context, whose length is at
most 20), so along every sequence of processed turns no stored context —
cached or persisted — grows beyond 20. -/
theorem claim_C1_context_cap :
    (∀ ctx : Context, (truncateContext ctx).length ≤ 20) ∧
    (∀ (uid : Int) (sid : SessionId) (ctx : Context) (st : AgentState),
      dictGet (updateSessionContext uid sid ctx st).memory sid
        = some (truncateContext ctx)) ∧
    (∀ (ts : List TurnInput) (st : AgentState), CapOK st → CapOK (runTurns ts st)) := by
  refine ⟨truncateContext_length_le, ?_, capOK_runTurns⟩
  intro uid sid ctx st
  simp only [updateSessionContext]
  exact dictGet_dictSet_self st.memory sid (truncateContext ctx)

theorem claim_C1_context_cap_witness :
    CapOK (runTurns
      [{ user_id := 42, message := "hello", session_id := some "s1",
         backend := .ok "hi there", ptime := 5 }]
      { memory := [], sessions := [], convs := [] }) :=
  claim_C1_context_cap.2.2 _ _ ⟨fun _ h => (nomatch h), fun _ h => nomatch h⟩

/-- C2: truncation never evicts the leading system seed: if a context is
non-empty and its first element has role `system`, then after any number of
truncations the first element is still that very message, and the retained
messages appear in their original relative order (the truncated context is a
sublist of the original). -/
theorem claim_C2_system_seed_preserved :
    ∀ (ctx : Context) (m : Msg) (k : Nat),
      ctx.head? = some m → m.role = "system" →
      (truncateContext^[k] ctx).head? = some m ∧
      List.Sublist (truncateContext^[k] ctx) ctx := by
  intro ctx m k hhead hrole
  induction k with
  | zero => exact ⟨hhead, List.Sublist.refl ctx⟩
  | succ k ih =>
    rw [Function.iterate_succ_apply']
    exact ⟨truncateContext_head? _ _ ih.1, (truncateContext_sublist _).trans ih.2⟩

theorem claim_C2_system_seed_preserved_witness :
    (truncateContext^[2] ((List.range 25).map fun i =>
      { role := if i = 0 then "system" else "user", content := toString i })).head?
      = some { role := "system", content := "0" } :=
  (claim_C2_system_seed_preserved _ { role := "system", content := "0" } 2
    (by decide) (by decide)).1

/-! ### Claim C3: a failed model call leaves the context untouched -/

theorem getSessionContext_sessions (uid : Int) (sid : SessionId) (st : AgentState) :
    (getSessionContext uid sid st).2.sessions = st.sessions := by
  cases hmem : dictGet st.memory sid with
  | some c => simp [getSessionContext, hmem]
  | none =>
    cases hfind : findActiveSession uid sid st.sessions with
    | none => simp [getSessionContext, hmem, hfind]
    | some s =>
      cases hctx : s.context with
      | none => simp [getSessionContext, hmem, hfind, hctx]
      | some c => simp [getSessionContext, hmem, hfind, hctx]

theorem getSessionContext_convs (uid : Int) (sid : SessionId) (st : AgentState) :
    (getSessionContext uid sid st).2.convs = st.convs := by
  cases hmem : dictGet st.memory sid with
  | some c => simp [getSessionContext, hmem]
  | none =>
    cases hfind : findActiveSession uid sid st.sessions with
    | none => simp [getSessionContext, hmem, hfind]
    | some s =>
      cases hctx : s.context with
      | none => simp [getSessionContext, hmem, hfind, hctx]
      | some c => simp [getSessionContext, hmem, hfind, hctx]

theorem getSessionContext_read_stable (uid : Int) (sid : SessionId) (st : AgentState) :
    (getSessionContext uid sid (getSessionContext uid sid st).2).1
      = (getSessionContext uid sid st).1 := by
  cases hmem : dictGet st.memory sid with
  | some c => simp [getSessionContext, hmem]
  | none =>
    cases hfind : findActiveSession uid sid st.sessions with
    | none => simp [getSessionContext, hmem, hfind]
    | some s =>
      cases hctx : s.context with
      | none => simp [getSessionContext, hmem, hfind, hctx]
      | some c =>
        simp [getSessionContext, hmem, hfind, hctx, dictGet_dictSet_self]

theorem getSessionContext_other_keys (uid : Int) (sid : SessionId) (st : AgentState)
    (sid2 : SessionId) (h2 : sid2 ≠ sid) :
    dictGet (getSessionContext uid sid st).2.memory sid2 = dictGet st.memory sid2 := by
  cases hmem : dictGet st.memory sid with
  | some c => simp [getSessionContext, hmem]
  | none =>
    cases hfind : findActiveSession uid sid st.sessions with
    | none => simp [getSessionContext, hmem, hfind]
    | some s =>
      cases hctx : s.context with
      | none => simp [getSessionContext, hmem, hfind, hctx]
      | some c =>
        simp only [getSessionContext, hmem, hfind, hctx]
        exact dictGet_dictSet_ne st.memory sid sid2 c h2

theorem getSessionContext_entry_kept (uid : Int) (sid : SessionId) (st : AgentState)
    (c : Context) (hc : dictGet st.memory sid = some c) :
    dictGet (getSessionContext uid sid st).2.memory sid = some c := by
  simp [getSessionContext, hc]

theorem getSessionContext_entry_value (uid : Int) (sid : SessionId) (st : AgentState)
    (c : Context) (hc : dictGet (getSessionContext uid sid st).2.memory sid = some c) :
    c = (getSessionContext uid sid st).1 := by
  cases hmem : dictGet st.memory sid with
  | some c' =>
    simp only [getSessionContext, hmem] at hc ⊢
    exact (Option.some.inj hc).symm
  | none =>
    cases hfind : findActiveSession uid sid st.sessions with
    | none =>
      simp only [getSessionContext, hmem, hfind] at hc ⊢
      exact Option.noConfusion hc
    | some s =>
      cases hctx : s.context with
      | none =>
        simp only [getSessionContext, hmem, hfind, hctx] at hc ⊢
        exact Option.noConfusion hc
      | some c' =>
        simp only [getSessionContext, hmem, hfind, hctx] at hc ⊢
        rw [dictGet_dictSet_self] at hc
        exact (Option.some.inj hc).symm

/-- C3: when the model backend fails, the turn commits nothing: the persisted
sessions are unchanged, no audit row is written, the context visible through
the read path is unchanged by value, cache entries of other sessions are
untouched, a pre-existing cache entry for the session keeps its value, and
any cache entry present afterwards holds exactly the context value the turn
started from (so no partial user-message append is ever visible). -/
theorem claim_C3_failed_turn_frame :
    ∀ (uid : Int) (msg : String) (sid : SessionId) (e : String) (pt : Int)
      (st : AgentState),
      (processMessage uid msg sid (.error e) pt st).2.sessions = st.sessions ∧
      (processMessage uid msg sid (.error e) pt st).2.convs = st.convs ∧
      (getSessionContext uid sid (processMessage uid msg sid (.error e) pt st).2).1
        = (getSessionContext uid sid st).1 ∧
      (∀ sid2, sid2 ≠ sid →
        dictGet (processMessage uid msg sid (.error e) pt st).2.memory sid2
          = dictGet st.memory sid2) ∧
      (∀ c, dictGet st.memory sid = some c →
        dictGet (processMessage uid msg sid (.error e) pt st).2.memory sid = some c) ∧
      (∀ c, dictGet (processMessage uid msg sid (.error e) pt st).2.memory sid = some c →
        c = (getSessionContext uid sid st).1) := by
  intro uid msg sid e pt st
  have h : (processMessage uid msg sid (.error e) pt st).2
      = (getSessionContext uid sid st).2 := by
    simp [processMessage, generateResponse]
  rw [h]
  exact ⟨getSessionContext_sessions uid sid st, getSessionContext_convs uid sid st,
    getSessionContext_read_stable uid sid st, getSessionContext_other_keys uid sid st,
    getSessionContext_entry_kept uid sid st, getSessionContext_entry_value uid sid st⟩

theorem claim_C3_failed_turn_frame_witness :
    dictGet (processMessage 7 "hi" (some "a") (.error "boom") 3
      { memory := [(some "a", [systemSeed])], sessions := [], convs := [] }).2.memory
      (some "b")
    = dictGet [(some "a", [systemSeed])] (some "b") :=
  (claim_C3_failed_turn_frame 7 "hi" (some "a") "boom" 3
    { memory := [(some "a", [systemSeed])], sessions := [], convs := [] }).2.2.2.1
    (some "b") (by decide)

/-! ### Claim C5: session creation -/

/-- C5 counterexample: creating a session for user 42 on an empty store
persists exactly one row, whose context holds no message at all — in
particular no system-role seed message, contrary to the claim. -/
theorem claim_C5_counterexample :
    (createSession 42 "s1" []).2
      = [{ user_id := 42, session_id := "s1", context_data := [], is_active := true }] ∧
    ¬ ∃ s ∈ (createSession 42 "s1" []).2, ∃ m ∈ s.context_data, m.role = "system" := by
  constructor
  · rfl
  · decide

/-- C5 (amended): with a fresh id, `create_session` returns the new id,
deactivates every other active session of the user (deleting none: the stored
ids are the old ones plus the new id, and every old row survives with its
user, id and context intact), persists the new session with an *empty*
context — the system-role seed is injected at prompt-construction time, not
stored — and afterwards the user has exactly one active session, the new one. -/
theorem claim_C5_create_session (uid : Int) (newId : String) (db : List USession)
    (hfresh : ∀ s ∈ db, s.session_id ≠ newId) :
    (createSession uid newId db).1 = newId ∧
    ((createSession uid newId db).2.filter fun s =>
        decide (s.user_id = uid ∧ s.is_active = true))
      = [{ user_id := uid, session_id := newId, context_data := [], is_active := true }] ∧
    ((createSession uid newId db).2.filter fun s => decide (s.session_id = newId))
      = [{ user_id := uid, session_id := newId, context_data := [], is_active := true }] ∧
    (createSession uid newId db).2.map USession.session_id
      = db.map USession.session_id ++ [newId] ∧
    (∀ s ∈ db, ∃ s' ∈ (createSession uid newId db).2,
      s'.user_id = s.user_id ∧ s'.session_id = s.session_id ∧
      s'.context_data = s.context_data) := by
  refine ⟨rfl, ?_, ?_, ?_, ?_⟩
  · simp only [createSession, List.filter_append]
    have h1 : (db.map fun s =>
        if s.user_id = uid ∧ s.is_active = true then { s with is_active := false } else s).filter
        (fun s => decide (s.user_id = uid ∧ s.is_active = true)) = [] := by
      rw [List.filter_eq_nil_iff]
      intro s' hs'
      rcases List.mem_map.mp hs' with ⟨s, _, rfl⟩
      by_cases h : s.user_id = uid ∧ s.is_active = true
      · simp [h]
      · simp only [if_neg h]
        simpa using h
    rw [h1]
    simp
  · simp only [createSession, List.filter_append]
    have h1 : (db.map fun s =>
        if s.user_id = uid ∧ s.is_active = true then { s with is_active := false } else s).filter
        (fun s => decide (s.session_id = newId)) = [] := by
      rw [List.filter_eq_nil_iff]
      intro s' hs'
      rcases List.mem_map.mp hs' with ⟨s, hs, rfl⟩
      by_cases h : s.user_id = uid ∧ s.is_active = true
      · simpa [h] using hfresh s hs
      · simpa [h] using hfresh s hs
    rw [h1]
    simp
  · simp only [createSession, List.map_append, List.map_map]
    congr 1
    refine List.map_congr_left ?_
    intro s _
    by_cases h : s.user_id = uid ∧ s.is_active = true
    · simp [h]
    · simp [h]
  · intro s hs
    refine ⟨if s.user_id = uid ∧ s.is_active = true then { s with is_active := false } else s,
      List.mem_append_left _ (List.mem_map_of_mem _ hs), ?_⟩
    by_cases h : s.user_id = uid ∧ s.is_active = true
    · simp [h]
    · simp [h]

theorem claim_C5_create_session_witness :
    ((createSession 42 "s1"
        [{ user_id := 42, session_id := "old", context_data := [], is_active := true }]).2.filter
      fun s => decide (s.user_id = 42 ∧ s.is_active = true))
    = [{ user_id := 42, session_id := "s1", context_data := [], is_active := true }] :=
  (claim_C5_create_session 42 "s1"
    [{ user_id := 42, session_id := "old", context_data := [], is_active := true }]
    (by decide)).2.1

/-! ### Claim C6: clearing a session is idempotent -/

theorem bsession_inactive_eta (s : BSession) (h : s.is_active = false) :
    ({ s with is_active := false } : BSession) = s := by
  cases s
  simp_all

theorem dictDel_eq_self {α β : Type} [DecidableEq α] (m : List (α × β)) (k : α)
    (h : ∀ p ∈ m, p.1 ≠ k) : dictDel m k = m := by
  induction m with
  | nil => rfl
  | cons p rest ih =>
    have hp : ¬ p.1 = k := h p (List.mem_cons_self _ _)
    simp only [dictDel, if_neg hp]
    rw [ih fun q hq => h q (List.mem_cons_of_mem _ hq)]

/-- C6: `clear_session` is idempotent — clearing twice equals clearing once —
it never touches the audit rows, and clearing a session that is absent from
the cache and has no active matching row is a no-op rather than an error. -/
theorem claim_C6_clear_idempotent :
    (∀ (uid : Int) (sid : SessionId) (st : AgentState),
      clearSession uid sid (clearSession uid sid st) = clearSession uid sid st) ∧
    (∀ (uid : Int) (sid : SessionId) (st : AgentState),
      (clearSession uid sid st).convs = st.convs) ∧
    (∀ (uid : Int) (sid : SessionId) (st : AgentState),
      (∀ p ∈ st.memory, p.1 ≠ sid) →
      (∀ s ∈ st.sessions, s.user_id = uid → s.session_id = sid → s.is_active = false) →
      clearSession uid sid st = st) := by
  refine ⟨?_, fun _ _ _ => rfl, ?_⟩
  · intro uid sid st
    simp only [clearSession, List.map_map]
    congr 1
    · exact dictDel_dictDel st.memory sid
    · refine List.map_congr_left ?_
      intro s _
      by_cases h : s.user_id = uid ∧ s.session_id = sid
      · simp [h, Function.comp]
      · simp [h, Function.comp]
  · intro uid sid st hmem hsess
    simp only [clearSession]
    have h1 : dictDel st.memory sid = st.memory := dictDel_eq_self st.memory sid hmem
    have h2 : (st.sessions.map fun s =>
        if s.user_id = uid ∧ s.session_id = sid then { s with is_active := false } else s)
        = st.sessions := by
      have hpt : ∀ s ∈ st.sessions,
          (if s.user_id = uid ∧ s.session_id = sid then
            ({ s with is_active := false } : BSession) else s) = id s := by
        intro s hs
        by_cases h : s.user_id = uid ∧ s.session_id = sid
        · rw [if_pos h, id]
          exact bsession_inactive_eta s (hsess s hs h.1 h.2)
        · rw [if_neg h, id]
      rw [List.map_congr_left hpt, List.map_id]
    rw [h1, h2]

theorem claim_C6_clear_idempotent_witness :
    clearSession 9 (some "gone")
      { memory := []
        sessions := [{ user_id := 9, session_id := some "gone", context := none, is_active := false }]
        convs := [] }
    = { memory := []
        sessions := [{ user_id := 9, session_id := some "gone", context := none, is_active := false }]
        convs := [] } :=
  claim_C6_clear_idempotent.2.2 9 (some "gone") _
    (fun _ h => (nomatch h)) (by decide)

/-! ### Claim C7: unknown session id yields the fresh seed context -/

/-- C7 counterexample: reading the context of a session id that is neither
cached nor persisted returns the fresh system-seed context, but does *not*
store it — the cache still has no entry for that id after the read, contrary
to the claim's "which is then stored". -/
theorem claim_C7_counterexample :
    (getSessionContext 42 (some "s1")
      { memory := [], sessions := [], convs := [] }).1 = [systemSeed] ∧
    dictGet (getSessionContext 42 (some "s1")
      { memory := [], sessions := [], convs := [] }).2.memory (some "s1") = none := by
  exact ⟨rfl, rfl⟩

/-- C7 (amended): for a session id absent from the cache and not found in the
persistent store, the read path totally succeeds, returning the fresh context
holding only the system seed and leaving the state unchanged; the fresh
context is *not* stored at read time (it only becomes durable when a turn
later commits through `_update_session_context`). -/
theorem claim_C7_unknown_session (uid : Int) (sid : SessionId) (st : AgentState)
    (h1 : dictGet st.memory sid = none)
    (h2 : findActiveSession uid sid st.sessions = none) :
    getSessionContext uid sid st = ([systemSeed], st) := by
  simp only [getSessionContext, h1, h2]

theorem claim_C7_unknown_session_witness :
    getSessionContext 42 (some "x") { memory := [], sessions := [], convs := [] }
      = ([systemSeed], { memory := [], sessions := [], convs := [] }) :=
  claim_C7_unknown_session 42 (some "x") _ rfl rfl

/-! ### Claim C8: every turn-level error becomes a structured failure -/

/-- C8: `process_message` is total over every backend outcome: it either
returns success with no error detail, or a failure result carrying the
generic user-facing message plus an internal error detail — no fault
propagates uncaught to the caller. -/
theorem claim_C8_structured_failure :
    ∀ (uid : Int) (msg : String) (sid : SessionId) (pt : Int) (st : AgentState)
      (backend : Except String String),
      ((processMessage uid msg sid backend pt st).1.success = true ∧
       (processMessage uid msg sid backend pt st).1.error = none) ∨
      ((processMessage uid msg sid backend pt st).1.success = false ∧
       (processMessage uid msg sid backend pt st).1.response = genericFailureText ∧
       ∃ e, (processMessage uid msg sid backend pt st).1.error
         = some ("Error processing message: OpenAI API error: " ++ e)) := by
  intro uid msg sid pt st backend
  cases backend with
  | ok reply => left; exact ⟨rfl, rfl⟩
  | error e => right; exact ⟨rfl, rfl, e, rfl⟩

/-! ### Claim C4: sliding-window rate limiting -/

/-- On a sorted deque, the front-pruning loop removes exactly the timestamps
older than the cutoff. -/
theorem dropWhile_lt_eq_filter (c : Int) (l : List Int)
    (hl : l.Pairwise (· ≤ ·)) :
    l.dropWhile (fun t => decide (t < c)) = l.filter (fun t => decide (c ≤ t)) := by
  induction l with
  | nil => rfl
  | cons a l ih =>
    rcases List.pairwise_cons.mp hl with ⟨ha, hl'⟩
    by_cases hac : a < c
    · rw [List.dropWhile_cons, if_pos (by simpa using hac), List.filter_cons,
        if_neg (by simpa using hac), ih hl']
    · rw [List.dropWhile_cons, if_neg (by simpa using hac), List.filter_cons,
        if_pos (by simpa using hac)]
      congr 1
      exact (List.filter_eq_self.mpr fun b hb => by
        simpa using le_trans (not_lt.mp hac) (ha b hb)).symm

theorem length_filter_mono {α : Type} (p q : α → Bool) (l : List α)
    (h : ∀ a ∈ l, p a = true → q a = true) :
    (l.filter p).length ≤ (l.filter q).length := by
  induction l with
  | nil => exact le_refl 0
  | cons a l ih =>
    have ih' := ih fun b hb => h b (List.mem_cons_of_mem _ hb)
    by_cases hp : p a = true
    · rw [List.filter_cons, if_pos hp, List.filter_cons,
        if_pos (h a (List.mem_cons_self _ _) hp)]
      simpa using ih'
    · rw [List.filter_cons, if_neg hp, List.filter_cons]
      by_cases hq : q a = true
      · rw [if_pos hq]
        exact le_trans ih' (by simp)
      · rw [if_neg hq]
        exact ih'

/-- Collapsing two lower-bound filters: the later (larger) cutoff wins. -/
theorem filter_ge_filter_ge (c c2 : Int) (hc : c ≤ c2) (l : List Int) :
    (l.filter fun s => decide (c ≤ s)).filter (fun s => decide (c2 ≤ s))
      = l.filter fun s => decide (c2 ≤ s) := by
  rw [List.filter_filter]
  refine List.filter_congr fun a _ => ?_
  by_cases h2 : c2 ≤ a
  · simp [h2, le_trans hc h2]
  · simp [h2]

/-- The sliding-window invariant: starting from a state that records exactly
the accepted timestamps at or after the cutoff `c`, every window of width `w`
holds at most `n` accepted requests, provided request times are monotone. -/
theorem runAccepted_window_bound (n : Nat) (w : Int) (hw : 0 ≤ w) :
    ∀ (reqs acc : List Int) (c : Int),
      reqs.Pairwise (· ≤ ·) →
      (∀ r ∈ reqs, c ≤ r - w) →
      (∀ s ∈ acc, ∀ r ∈ reqs, s ≤ r) →
      acc.Pairwise (· ≤ ·) →
      (∀ t : Int, ((acc.filter fun s => decide (t - w ≤ s ∧ s ≤ t)).length ≤ n)) →
      ∀ t : Int,
        (((acc ++ runAccepted n w reqs (acc.filter fun s => decide (c ≤ s))).filter
          fun s => decide (t - w ≤ s ∧ s ≤ t)).length ≤ n) := by
  intro reqs
  induction reqs with
  | nil =>
    intro acc c _ _ _ _ hb t
    simpa [runAccepted] using hb t
  | cons now rest ih =>
    intro acc c hsorted hcut hacc haccsorted hb t
    rcases List.pairwise_cons.mp hsorted with ⟨hnow, hrest⟩
    have hcnow : c ≤ now - w := hcut now (List.mem_cons_self _ _)
    have hpruned : pruneWindow w now (acc.filter fun s => decide (c ≤ s))
        = acc.filter fun s => decide (now - w ≤ s) := by
      unfold pruneWindow
      rw [dropWhile_lt_eq_filter (now - w) _ (haccsorted.filter _),
        filter_ge_filter_ge c (now - w) hcnow acc]
    by_cases hdec : n ≤ (pruneWindow w now (acc.filter fun s => decide (c ≤ s))).length
    · -- rejected: no timestamp appended, accepted list unchanged
      have hdec' : n ≤ (acc.filter fun s => decide (now - w ≤ s)).length :=
        hpruned ▸ hdec
      have hrun : runAccepted n w (now :: rest) (acc.filter fun s => decide (c ≤ s))
          = runAccepted n w rest (acc.filter fun s => decide (now - w ≤ s)) := by
        simp only [runAccepted, rateStep, hpruned, if_pos hdec']
        simp
      rw [hrun]
      exact ih acc (now - w) hrest
        (fun r hr => by have := hnow r hr; omega)
        (fun s hs r hr => hacc s hs r (List.mem_cons_of_mem _ hr))
        haccsorted hb t
    · -- accepted: `now` is appended to both the deque and the accepted list
      have hdec' : ¬ n ≤ (acc.filter fun s => decide (now - w ≤ s)).length :=
        hpruned ▸ hdec
      have hlen : (acc.filter fun s => decide (now - w ≤ s)).length < n := by
        omega
      have hrun : runAccepted n w (now :: rest) (acc.filter fun s => decide (c ≤ s))
          = now :: runAccepted n w rest
              ((acc.filter fun s => decide (now - w ≤ s)) ++ [now]) := by
        simp only [runAccepted, rateStep, hpruned, if_neg hdec']
        simp
      rw [hrun]
      have hstate : (acc.filter fun s => decide (now - w ≤ s)) ++ [now]
          = (acc ++ [now]).filter fun s => decide (now - w ≤ s) := by
        rw [List.filter_append]
        congr 1
        simp only [List.filter_cons, List.filter_nil]
        rw [if_pos (show decide (now - w ≤ now) = true by
          simp only [decide_eq_true_eq]; omega)]
      have hgoal : acc ++ now :: runAccepted n w rest
            ((acc ++ [now]).filter fun s => decide (now - w ≤ s))
          = (acc ++ [now]) ++ runAccepted n w rest
            ((acc ++ [now]).filter fun s => decide (now - w ≤ s)) := by
        simp
      rw [hstate, hgoal]
      refine ih (acc ++ [now]) (now - w) hrest
        (fun r hr => by have := hnow r hr; omega)
        ?_ ?_ ?_ t
      · intro s hs r hr
        rcases List.mem_append.mp hs with h1 | h1
        · exact hacc s h1 r (List.mem_cons_of_mem _ hr)
        · rcases List.mem_singleton.mp h1 with rfl
          exact hnow r hr
      · rw [List.pairwise_append]
        refine ⟨haccsorted, List.pairwise_singleton _ _, ?_⟩
        intro s hs b hb'
        rw [List.mem_singleton.mp hb']
        exact hacc s hs now (List.mem_cons_self _ _)
      · intro t'
        rw [List.filter_append]
        by_cases hnw : t' - w ≤ now ∧ now ≤ t'
        · have h1 : ((acc.filter fun s => decide (t' - w ≤ s ∧ s ≤ t')).length)
              ≤ (acc.filter fun s => decide (now - w ≤ s)).length := by
            refine length_filter_mono _ _ acc fun a _ ha => ?_
            have ha' : t' - w ≤ a ∧ a ≤ t' := by simpa using ha
            simp only [decide_eq_true_eq]
            omega
          have h2 : (([now].filter fun s => decide (t' - w ≤ s ∧ s ≤ t')).length) ≤ 1 := by
            simp only [List.filter_cons, List.filter_nil]
            split <;> simp
          rw [List.length_append]
          omega
        · have h2 : ([now].filter fun s => decide (t' - w ≤ s ∧ s ≤ t')) = [] := by
            simp only [List.filter_cons, List.filter_nil]
            rw [if_neg (by simpa using hnw)]
          rw [h2, List.append_nil]
          exact hb t'

/-- C4: the rate limiter's per-call contract — prune timestamps older than
`now - W`, then reject with no append when the remaining count reaches `N`,
else append `now` and accept; consequently eleven instant requests under the
configured `N = 10`, `W = 60` yield ten admissions then exactly one
rejection, a call for one identity leaves every other identity's record
untouched, and along any monotone request trace at most `n` requests are
admitted whose timestamps lie in any window `[t - w, t]`. -/
theorem claim_C4_rate_limiter :
    (∀ (n : Nat) (w now : Int) (times : List Int),
      ((rateStep n w now times).1 = false ↔ n ≤ (pruneWindow w now times).length) ∧
      (rateStep n w now times).2 =
        (if n ≤ (pruneWindow w now times).length then pruneWindow w now times
         else pruneWindow w now times ++ [now])) ∧
    ((runRate RATE_LIMIT_MESSAGES RATE_LIMIT_WINDOW (List.replicate 11 0) []).1
       = List.replicate 10 true ++ [false]) ∧
    (∀ (m : List (Int × List Int)) (now uid uid2 : Int), uid2 ≠ uid →
       dictGet (rateLimiterCall now uid m).2 uid2 = dictGet m uid2) ∧
    (∀ (n : Nat) (w : Int) (reqs : List Int), 0 ≤ w → reqs.Pairwise (· ≤ ·) →
       ∀ t : Int, ((runAccepted n w reqs []).filter
         fun s => decide (t - w ≤ s ∧ s ≤ t)).length ≤ n) := by
  refine ⟨?_, by decide, ?_, ?_⟩
  · intro n w now times
    constructor
    · simp only [rateStep]
      split
      case isTrue h => simpa using h
      case isFalse h => simpa using h
    · simp only [rateStep]
      split
      case isTrue h => rfl
      case isFalse h => rfl
  · intro m now uid uid2 h
    simp only [rateLimiterCall]
    exact dictGet_dictSet_ne m uid uid2 _ h
  · intro n w reqs hw hsorted t
    cases reqs with
    | nil => simp [runAccepted]
    | cons a rest =>
      have := runAccepted_window_bound n w hw (a :: rest) [] (a - w) hsorted
        (fun r hr => by
          rcases List.mem_cons.mp hr with rfl | hr
          · omega
          · have := (List.pairwise_cons.mp hsorted).1 r hr
            omega)
        (fun s hs => (List.not_mem_nil s hs).elim)
        (List.Pairwise.nil)
        (fun _ => by simp)
        t
      simpa using this

theorem claim_C4_rate_limiter_witness :
    ((runAccepted 10 60 [0, 0, 0] []).filter
      fun s => decide ((0 : Int) - 60 ≤ s ∧ s ≤ 0)).length ≤ 10 :=
  claim_C4_rate_limiter.2.2.2 10 60 [0, 0, 0] (by decide) (by decide) 0

/-! ### Claim C10: the read path returns a copy (aliasing model) -/

theorem dictGet_mem {α β : Type} [DecidableEq α] {m : List (α × β)} {k : α}
    {v : β} (h : dictGet m k = some v) : (k, v) ∈ m := by
  induction m with
  | nil => simp [dictGet] at h
  | cons p rest ih =>
    by_cases hp : p.1 = k
    · simp only [dictGet, if_pos hp] at h
      have hpv : p = (k, v) := by
        cases p
        simp only [Option.some.injEq] at h
        simp_all
      exact hpv ▸ List.mem_cons_self _ _
    · simp only [dictGet, if_neg hp] at h
      exact List.mem_cons_of_mem _ (ih h)

theorem Heap.read_write_self (h : Heap) (r : Nat) (c : Context)
    (hr : r < h.cells.length) : (h.write r c).read r = c := by
  simp only [Heap.write, Heap.read, List.getD_eq_getElem?_getD,
    List.getElem?_set_self hr]
  rfl

theorem Heap.read_write_ne (h : Heap) (r a : Nat) (c : Context) (hne : a ≠ r) :
    (h.write r c).read a = h.read a := by
  simp only [Heap.write, Heap.read, List.getD_eq_getElem?_getD,
    List.getElem?_set_ne (fun hh => hne hh.symm)]

theorem Heap.read_alloc_lt (h : Heap) (c : Context) (a : Nat)
    (ha : a < h.cells.length) : (h.alloc c).1.read a = h.read a := by
  simp only [Heap.alloc, Heap.read, List.getD_eq_getElem?_getD,
    List.getElem?_append_left ha]

theorem Heap.read_alloc_self (h : Heap) (c : Context) :
    (h.alloc c).1.read (h.alloc c).2 = c := by
  simp only [Heap.alloc, Heap.read, List.getD_eq_getElem?_getD,
    List.getElem?_concat_length]
  rfl

theorem Heap.write_length (h : Heap) (r : Nat) (c : Context) :
    (h.write r c).cells.length = h.cells.length := by
  simp [Heap.write]

theorem appendMsgs_memory (r : Nat) (ms : List Msg) (st : RefState) :
    (appendMsgs r ms st).memory = st.memory := by
  induction ms generalizing st with
  | nil => rfl
  | cons m ms ih => simpa [appendMsgs, appendMsg] using ih _

theorem appendMsgs_read_ne (r a : Nat) (ms : List Msg) (st : RefState)
    (hne : a ≠ r) : (appendMsgs r ms st).heap.read a = st.heap.read a := by
  induction ms generalizing st with
  | nil => rfl
  | cons m ms ih =>
    have step : appendMsgs r (m :: ms) st = appendMsgs r ms (appendMsg r m st) := rfl
    rw [step, ih (appendMsg r m st)]
    exact Heap.read_write_ne st.heap r a _ hne

theorem appendMsgs_read_self (r : Nat) (ms : List Msg) (st : RefState)
    (hr : r < st.heap.cells.length) :
    (appendMsgs r ms st).heap.read r = st.heap.read r ++ ms := by
  induction ms generalizing st with
  | nil => simp [appendMsgs]
  | cons m ms ih =>
    have step : appendMsgs r (m :: ms) st = appendMsgs r ms (appendMsg r m st) := rfl
    rw [step, ih (appendMsg r m st) (by simpa [appendMsg, Heap.write_length] using hr)]
    rw [show (appendMsg r m st).heap.read r = st.heap.read r ++ [m] from
      Heap.read_write_self st.heap r _ hr]
    simp

/-- C10: the read path hands the turn a fresh copy: after
`_get_session_context` returns reference `r` and the turn appends any series
of messages through `r`, the object referenced by the cache entry for that
session id is unchanged (first conjunct), any object cached for the id before
the read keeps its pre-turn value (second conjunct), and the appends all
accumulate in the returned copy (third conjunct) — so the shared
`conversation_memory` entry is untouched until `_update_session_context`
commits. -/
theorem claim_C10_read_path_copies :
    ∀ (uid : Int) (sid : SessionId) (st : RefState) (ms : List Msg),
      RefWF st →
      (∀ a, dictGet (getSessionContextRef uid sid st).2.memory sid = some a →
        (appendMsgs (getSessionContextRef uid sid st).1 ms
          (getSessionContextRef uid sid st).2).heap.read a
          = (getSessionContextRef uid sid st).2.heap.read a) ∧
      (∀ a, dictGet st.memory sid = some a →
        (appendMsgs (getSessionContextRef uid sid st).1 ms
          (getSessionContextRef uid sid st).2).heap.read a = st.heap.read a) ∧
      ((appendMsgs (getSessionContextRef uid sid st).1 ms
          (getSessionContextRef uid sid st).2).heap.read
          (getSessionContextRef uid sid st).1
        = (getSessionContextRef uid sid st).2.heap.read
            (getSessionContextRef uid sid st).1 ++ ms) := by
  intro uid sid st ms hwf
  cases hmem : dictGet st.memory sid with
  | some a0 =>
    -- cache hit: the returned reference is a fresh copy of the cached object
    have ha0 : a0 < st.heap.cells.length := hwf (sid, a0) (dictGet_mem hmem)
    simp only [getSessionContextRef, hmem, Heap.alloc]
    refine ⟨?_, ?_, ?_⟩
    · intro a ha
      rcases Option.some.inj ha with rfl
      exact appendMsgs_read_ne _ _ ms _ (by omega)
    · intro a ha
      rcases Option.some.inj ha with rfl
      rw [appendMsgs_read_ne _ _ ms _ (by omega)]
      exact Heap.read_alloc_lt st.heap _ a0 ha0
    · rw [appendMsgs_read_self]
      simp [Heap.alloc]
  | none =>
    cases hfind : findActiveSession uid sid st.sessions with
    | none =>
      simp only [getSessionContextRef, hmem, hfind, Heap.alloc]
      refine ⟨?_, ?_, ?_⟩
      · intro a ha
        exact Option.noConfusion ha
      · intro a ha
        exact Option.noConfusion ha
      · rw [appendMsgs_read_self]
        simp [Heap.alloc]
    | some s =>
      cases hctx : s.context with
      | none =>
        simp only [getSessionContextRef, hmem, hfind, hctx, Heap.alloc]
        refine ⟨?_, ?_, ?_⟩
        · intro a ha
          exact Option.noConfusion ha
        · intro a ha
          exact Option.noConfusion ha
        · rw [appendMsgs_read_self]
          simp [Heap.alloc]
      | some c =>
        -- database load: the parsed object is cached, a copy is returned
        simp only [getSessionContextRef, hmem, hfind, hctx, Heap.alloc]
        refine ⟨?_, ?_, ?_⟩
        · intro a ha
          rw [dictGet_dictSet_self] at ha
          rcases Option.some.inj ha with rfl
          exact appendMsgs_read_ne _ _ ms _ (by simp)
        · intro a ha
          exact Option.noConfusion ha
        · rw [appendMsgs_read_self]
          simp

theorem claim_C10_read_path_copies_witness :
    (appendMsgs
        (getSessionContextRef 1 (some "s")
          { heap := { cells := [[systemSeed]] }, memory := [(some "s", 0)],
            sessions := [] }).1
        [{ role := "user", content := "hi" }]
        (getSessionContextRef 1 (some "s")
          { heap := { cells := [[systemSeed]] }, memory := [(some "s", 0)],
            sessions := [] }).2).heap.read 0
      = (getSessionContextRef 1 (some "s")
          { heap := { cells := [[systemSeed]] }, memory := [(some "s", 0)],
            sessions := [] }).2.heap.read 0 :=
  (claim_C10_read_path_copies 1 (some "s")
    { heap := { cells := [[systemSeed]] }, memory := [(some "s", 0)],
      sessions := [] }
    [{ role := "user", content := "hi" }]
    (by intro p hp; simp at hp; simp [hp])).1 0
    (by rfl)

/-! ### Claim C9: `get_user_stats` raises `NameError` -/

/-- C9: the stats operation never returns the claimed totals: evaluating the
unresolved module-scope name `UserSession` raises `NameError` on every call
(`app/ai_agent.py` imports only `Conversation` from `app.database`), so the
call fails for every input — including the failing input of its own test,
two conversation rows for user 123. -/
theorem claim_C9_stats_name_error :
    ∀ (dbConvs : List ConvRecord) (dbSessions : List USession) (uid : Int),
      getUserStats dbConvs dbSessions uid
        = .error "NameError: name UserSession is not defined" := by
  intro dbConvs dbSessions uid
  rfl

end AiMessagerBot
